import Mathlib

/-!
Shallow embedding of the invoice-editor and record-browser logic of
src/src/components/DatabaseManager.tsx (the DatabaseManager record browser
and the InvoiceModal invoice editor).

Numbers: JS quantities are modelled as integers, money values as rationals.
Remote writes and toast notifications are modelled as explicit traces.
-/

/-- An inventory record: id, name, unit price, available quantity. -/
structure InventoryItem where
  id : String
  name : String
  unit_price : ℚ
  quantity : ℤ
deriving DecidableEq

/-- A line-item draft in the editor (the InvoiceItem interface). -/
structure InvoiceItem where
  id : String
  inventory_id : String
  description : String
  quantity : ℤ
  unit_price : ℚ
  line_total : ℚ
deriving DecidableEq

/-- A toast notification (title and description shown to the user). -/
structure Toast where
  title : String
  description : String
deriving DecidableEq

/-- The invoice-level form state of the editor. -/
structure FormData where
  client_id : String
  invoice_number : String
  issue_date : String
  due_date : String
  notes : String
  status : String
deriving DecidableEq

/-- The invoice record assembled by handleSubmit (the invoiceData object). -/
structure InvoiceData where
  client_id : String
  invoice_number : String
  issue_date : String
  due_date : String
  notes : String
  status : String
  subtotal : ℚ
  tax_amount : ℚ
  total_amount : ℚ
deriving DecidableEq

/-- A persisted line-item record (note: the code does not store inventory_id). -/
structure LineItemRecord where
  invoice_id : String
  description : String
  quantity : ℤ
  unit_price : ℚ
  line_total : ℚ
deriving DecidableEq

/-- One remote write issued through the mutation hooks. -/
inductive RemoteWrite where
  | createInvoice (data : InvoiceData)
  | updateInvoice (id : String) (data : InvoiceData)
  | createInvoiceItems (records : List LineItemRecord)
  | updateInventoryQuantity (inventoryId : String) (quantityToReduce : ℤ)
deriving DecidableEq

/-- calculateItemTotal: quantity * unitPrice. -/
def calculateItemTotal (quantity : ℤ) (unitPrice : ℚ) : ℚ :=
  quantity * unitPrice

/-- calculateSubtotal: items.reduce((sum, item) => sum + item.line_total, 0). -/
def calculateSubtotal (items : List InvoiceItem) : ℚ :=
  items.foldl (fun sum item => sum + item.line_total) 0

/-- The "Insufficient Inventory" toast naming the item and its available quantity. -/
def insufficientToast (invItem : InventoryItem) : Toast :=
  { title := "Insufficient Inventory"
    description := "Only " ++ toString invItem.quantity ++ " units available for " ++ invItem.name }

/-- The toast raised when no client is selected. -/
def selectClientToast : Toast :=
  { title := "Error", description := "Please select a client" }

/-- The generic toast raised when line-item validation fails. -/
def invalidItemsToast : Toast :=
  { title := "Error", description := "Please select inventory items for all line items" }

/-- The success toast (update or create wording). -/
def successToast (isUpdate : Bool) : Toast :=
  { title := "Success",
    description := if isUpdate then "Invoice updated successfully" else "Invoice created successfully" }

/-- inventory.find(inv => inv.id === invId). -/
def findInventory (inventory : List InventoryItem) (invId : String) : Option InventoryItem :=
  inventory.find? (fun invItem => invItem.id == invId)

/-- The field edited by handleItemChange, together with the new value. -/
inductive ItemField where
  | quantity (value : ℤ)
  | unit_price (value : ℚ)
  | description (value : String)
deriving DecidableEq

/-- The per-item body of handleItemChange: builds the updated item for the
matching id and returns the toasts it raises. Quantity edits on a line whose
inventory_id resolves are clamped to the available quantity; quantity and
unit-price edits recompute line_total. -/
def updateItemField (inventory : List InventoryItem) (field : ItemField) (item : InvoiceItem) :
    InvoiceItem × List Toast :=
  match field with
  | ItemField.description s => ({ item with description := s }, [])
  | ItemField.unit_price p =>
      ({ item with unit_price := p, line_total := calculateItemTotal item.quantity p }, [])
  | ItemField.quantity n =>
      if item.inventory_id ≠ "" then
        match findInventory inventory item.inventory_id with
        | some invItem =>
            if invItem.quantity < n then
              ({ item with
                  quantity := invItem.quantity
                  line_total := calculateItemTotal invItem.quantity item.unit_price },
                [insufficientToast invItem])
            else
              ({ item with quantity := n, line_total := calculateItemTotal n item.unit_price }, [])
        | none =>
            ({ item with quantity := n, line_total := calculateItemTotal n item.unit_price }, [])
      else
        ({ item with quantity := n, line_total := calculateItemTotal n item.unit_price }, [])

/-- handleItemChange: maps over the items, updating the one with the given id,
and collects the toasts raised. -/
def handleItemChange (inventory : List InventoryItem) (items : List InvoiceItem)
    (id : String) (field : ItemField) : List InvoiceItem × List Toast :=
  (items.map (fun item => if item.id == id then (updateItemField inventory field item).1 else item),
   (items.map (fun item => if item.id == id then (updateItemField inventory field item).2 else [])).flatten)

/-- The update applied to the matching line by handleInventorySelect: copies
name and unit price, clamps quantity to min(current, available), recomputes
line total. -/
def selectInventoryInto (invId : String) (invItem : InventoryItem) (item : InvoiceItem) :
    InvoiceItem :=
  { item with
    inventory_id := invId,
    description := invItem.name,
    unit_price := invItem.unit_price,
    quantity := min item.quantity invItem.quantity,
    line_total := calculateItemTotal (min item.quantity invItem.quantity) invItem.unit_price }

/-- handleInventorySelect: if the inventory id resolves, update the matching
line; otherwise the items are unchanged. -/
def handleInventorySelect (inventory : List InventoryItem) (itemId invId : String)
    (items : List InvoiceItem) : List InvoiceItem :=
  match findInventory inventory invId with
  | some invItem =>
      items.map (fun item => if item.id == itemId then selectInventoryInto invId invItem item else item)
  | none => items

/-- A blank line-item draft (quantity 1, everything else empty/zero). -/
def blankDraft (newId : String) : InvoiceItem :=
  { id := newId, inventory_id := "", description := "", quantity := 1,
    unit_price := 0, line_total := 0 }

/-- The editor's initial line-item list for a new invoice. -/
def initialItems : List InvoiceItem := [blankDraft "1"]

/-- The single placeholder line synthesized when an existing invoice is opened. -/
def prefillItems (subtotal : ℚ) : List InvoiceItem :=
  [{ id := "1", inventory_id := "", description := "Steel fabrication services",
     quantity := 1, unit_price := subtotal, line_total := subtotal }]

/-- addItem: append a blank draft with a new id. -/
def addItem (newId : String) (items : List InvoiceItem) : List InvoiceItem :=
  items ++ [blankDraft newId]

/-- removeItem: filter out the id, but only when more than one line remains. -/
def removeItem (id : String) (items : List InvoiceItem) : List InvoiceItem :=
  if 1 < items.length then items.filter (fun item => item.id != id) else items

/-- validateItems: fails (without toast) on the first line with a missing
inventory reference, empty description, non-positive quantity or non-positive
unit price; fails with the naming toast on the first line whose resolved
inventory item has fewer units than requested. -/
def validateItems (inventory : List InventoryItem) : List InvoiceItem → Bool × List Toast
  | [] => (true, [])
  | item :: rest =>
      if item.inventory_id = "" ∨ item.description = "" ∨ item.quantity ≤ 0 ∨ item.unit_price ≤ 0 then
        (false, [])
      else
        match findInventory inventory item.inventory_id with
        | some invItem =>
            if invItem.quantity < item.quantity then (false, [insufficientToast invItem])
            else validateItems inventory rest
        | none => validateItems inventory rest

/-- The invoiceData object built in handleSubmit. -/
def mkInvoiceData (formData : FormData) (subtotal : ℚ) : InvoiceData :=
  { client_id := formData.client_id,
    invoice_number := formData.invoice_number,
    issue_date := formData.issue_date,
    due_date := formData.due_date,
    notes := formData.notes,
    status := formData.status,
    subtotal := subtotal,
    tax_amount := 0,
    total_amount := subtotal }

/-- The persisted form of one line item (invoice_id set to the new invoice's id). -/
def lineItemRecord (invoiceId : String) (item : InvoiceItem) : LineItemRecord :=
  { invoice_id := invoiceId,
    description := item.description,
    quantity := item.quantity,
    unit_price := item.unit_price,
    line_total := item.line_total }

/-- The stock-decrement loop: one updateInventoryQuantity write per line with a
bound inventory reference and positive quantity. -/
def inventoryDecrements : List InvoiceItem → List RemoteWrite
  | [] => []
  | item :: rest =>
      if item.inventory_id ≠ "" ∧ 0 < item.quantity then
        RemoteWrite.updateInventoryQuantity item.inventory_id item.quantity ::
          inventoryDecrements rest
      else
        inventoryDecrements rest

/-- handleSubmit: returns the trace of remote writes issued and the toasts
raised. existing = some invId models the invoice prop being present. -/
def handleSubmit (inventory : List InventoryItem) (existing : Option String)
    (formData : FormData) (items : List InvoiceItem) (newInvoiceId : String) :
    List RemoteWrite × List Toast :=
  if formData.client_id = "" then
    ([], [selectClientToast])
  else
    match existing with
    | some invId =>
        ([RemoteWrite.updateInvoice invId (mkInvoiceData formData (calculateSubtotal items))],
         [successToast true])
    | none =>
        if (validateItems inventory items).1 then
          (RemoteWrite.createInvoice (mkInvoiceData formData (calculateSubtotal items)) ::
            RemoteWrite.createInvoiceItems (items.map (lineItemRecord newInvoiceId)) ::
            inventoryDecrements items,
           (validateItems inventory items).2 ++ [successToast false])
        else
          ([], (validateItems inventory items).2 ++ [invalidItemsToast])

/-- One editor operation on the line-item list. -/
inductive EditorOp where
  | select (itemId invId : String)
  | change (id : String) (field : ItemField)
  | add (newId : String)
  | remove (id : String)
deriving DecidableEq

/-- Apply one editor operation to the line-item list. -/
def applyOp (inventory : List InventoryItem) (op : EditorOp) (items : List InvoiceItem) :
    List InvoiceItem :=
  match op with
  | EditorOp.select itemId invId => handleInventorySelect inventory itemId invId items
  | EditorOp.change id field => (handleItemChange inventory items id field).1
  | EditorOp.add newId => addItem newId items
  | EditorOp.remove id => removeItem id items

/-- Every line's total equals its quantity times its unit price. -/
def linesInvariant (items : List InvoiceItem) : Prop :=
  ∀ item ∈ items, item.line_total = calculateItemTotal item.quantity item.unit_price

/-- The editor states reachable from the blank initial state. The add step
carries the freshness of the generated id (Date.now-based in the code). -/
inductive Reachable (inventory : List InventoryItem) : List InvoiceItem → Prop where
  | init : Reachable inventory initialItems
  | select (itemId invId : String) {items : List InvoiceItem} :
      Reachable inventory items →
      Reachable inventory (handleInventorySelect inventory itemId invId items)
  | change (id : String) (field : ItemField) {items : List InvoiceItem} :
      Reachable inventory items →
      Reachable inventory (handleItemChange inventory items id field).1
  | add (newId : String) {items : List InvoiceItem}
      (fresh : ∀ item ∈ items, item.id ≠ newId) :
      Reachable inventory items → Reachable inventory (addItem newId items)
  | remove (id : String) {items : List InvoiceItem} :
      Reachable inventory items → Reachable inventory (removeItem id items)

/-- The four field checks of validateItems, in positive form. -/
def fieldsOk (item : InvoiceItem) : Prop :=
  item.inventory_id ≠ "" ∧ item.description ≠ "" ∧ 0 < item.quantity ∧ 0 < item.unit_price

/-- A line violating validation: a failed field check, or a resolved inventory
item with fewer units than the requested quantity. -/
def lineViolation (inventory : List InventoryItem) (item : InvoiceItem) : Prop :=
  item.inventory_id = "" ∨ item.description = "" ∨ item.quantity ≤ 0 ∨ item.unit_price ≤ 0 ∨
    ∃ invItem, findInventory inventory item.inventory_id = some invItem ∧
      invItem.quantity < item.quantity

/-- Substring test on the underlying character lists. -/
def charsContain (pat : List Char) : List Char → Bool
  | [] => List.isEmpty pat
  | c :: rest => List.isPrefixOf pat (c :: rest) || charsContain pat rest

/-- column.includes(pat). -/
def strContains (s pat : String) : Bool :=
  charsContain pat.toList s.toList

/-- column.endsWith(pat). -/
def strEndsWith (s pat : String) : Bool :=
  List.isSuffixOf pat.toList s.toList

/-- How a non-null cell value is rendered. -/
inductive RenderKind where
  | currency
  | datetime
  | plain
deriving DecidableEq

/-- formatValue's dispatch on the column name: currency for amount/price/total,
else date-time for columns containing "date" or containing "at", else plain. -/
def formatValueKind (column : String) : RenderKind :=
  if strContains column "amount" || strContains column "price" || strContains column "total" then
    RenderKind.currency
  else if strContains column "date" || strContains column "at" then
    RenderKind.datetime
  else
    RenderKind.plain

/-- Modelled from the spec's formatting rule: currency for amount/price/total,
else date-time for columns containing "date" or ending in "_at", else plain. -/
def specFormatKind (column : String) : RenderKind :=
  if strContains column "amount" || strContains column "price" || strContains column "total" then
    RenderKind.currency
  else if strContains column "date" || strEndsWith column "_at" then
    RenderKind.datetime
  else
    RenderKind.plain

/-- The column lists of the four table configurations of the record browser. -/
def browserColumns : List String :=
  ["id", "invoice_number", "client_name", "total_amount", "status", "issue_date", "due_date"] ++
  ["id", "company_name", "contact_name", "email", "phone", "address"] ++
  ["id", "first_name", "last_name", "created_at"] ++
  ["id", "invoice_id", "description", "quantity", "unit_price", "line_total"]

/-! ### Helper lemmas -/

lemma calculateSubtotal_aux (items : List InvoiceItem) (a : ℚ) :
    items.foldl (fun sum item => sum + item.line_total) a =
      a + (items.map InvoiceItem.line_total).sum := by
  induction items generalizing a with
  | nil => simp
  | cons x xs ih => simp [ih, add_assoc]

/-- calculateSubtotal is the sum of the line totals. -/
lemma calculateSubtotal_eq_sum (items : List InvoiceItem) :
    calculateSubtotal items = (items.map InvoiceItem.line_total).sum := by
  unfold calculateSubtotal
  rw [calculateSubtotal_aux]
  simp

/-- The decrement loop in filter-and-map form. -/
lemma inventoryDecrements_eq (items : List InvoiceItem) :
    inventoryDecrements items =
      (items.filter (fun item => item.inventory_id != "" && decide (0 < item.quantity))).map
        (fun item => RemoteWrite.updateInventoryQuantity item.inventory_id item.quantity) := by
  induction items with
  | nil => rfl
  | cons x xs ih =>
    rw [inventoryDecrements]
    by_cases h : x.inventory_id ≠ "" ∧ 0 < x.quantity
    · rw [if_pos h, ih, List.filter_cons_of_pos, List.map_cons]
      simp only [Bool.and_eq_true, bne_iff_ne, decide_eq_true_eq]
      exact h
    · rw [if_neg h, ih, List.filter_cons_of_neg]
      simp only [Bool.and_eq_true, bne_iff_ne, decide_eq_true_eq]
      exact h

/-- Every write emitted by the decrement loop is an inventory decrement for
some line with a bound inventory reference and positive quantity. -/
lemma mem_inventoryDecrements (items : List InvoiceItem) (w : RemoteWrite)
    (h : w ∈ inventoryDecrements items) :
    ∃ item ∈ items, item.inventory_id ≠ "" ∧ 0 < item.quantity ∧
      w = RemoteWrite.updateInventoryQuantity item.inventory_id item.quantity := by
  induction items with
  | nil => rw [inventoryDecrements] at h; cases h
  | cons x xs ih =>
    rw [inventoryDecrements] at h
    split at h
    · rename_i hcond
      rcases List.mem_cons.mp h with h1 | h2
      · exact ⟨x, List.mem_cons_self x xs, hcond.1, hcond.2, h1⟩
      · rcases ih h2 with ⟨item, hmem, hrest⟩
        exact ⟨item, List.mem_cons_of_mem x hmem, hrest⟩
    · rcases ih h with ⟨item, hmem, hrest⟩
      exact ⟨item, List.mem_cons_of_mem x hmem, hrest⟩

/-- updateItemField never changes the draft id. -/
lemma updateItemField_id (inventory : List InventoryItem) (field : ItemField)
    (item : InvoiceItem) : (updateItemField inventory field item).1.id = item.id := by
  cases field with
  | description s => rfl
  | unit_price p => rfl
  | quantity n =>
    rw [updateItemField]
    split
    · split
      · split <;> rfl
      · rfl
    · rfl

/-- validateItems fails exactly when some line violates validation. -/
lemma validateItems_false_iff (inventory : List InventoryItem) (items : List InvoiceItem) :
    (validateItems inventory items).1 = false ↔ ∃ item ∈ items, lineViolation inventory item := by
  induction items with
  | nil => simp [validateItems]
  | cons x xs ih =>
    rw [validateItems]
    by_cases h1 : x.inventory_id = "" ∨ x.description = "" ∨ x.quantity ≤ 0 ∨ x.unit_price ≤ 0
    · rw [if_pos h1]
      constructor
      · intro _
        refine ⟨x, List.mem_cons_self x xs, ?_⟩
        rcases h1 with a | b | c | d
        · exact Or.inl a
        · exact Or.inr (Or.inl b)
        · exact Or.inr (Or.inr (Or.inl c))
        · exact Or.inr (Or.inr (Or.inr (Or.inl d)))
      · intro _
        rfl
    · rw [if_neg h1]
      cases hf : findInventory inventory x.inventory_id with
      | some invItem =>
        dsimp only
        by_cases h2 : invItem.quantity < x.quantity
        · rw [if_pos h2]
          constructor
          · intro _
            exact ⟨x, List.mem_cons_self x xs,
              Or.inr (Or.inr (Or.inr (Or.inr ⟨invItem, hf, h2⟩)))⟩
          · intro _
            rfl
        · rw [if_neg h2, ih]
          constructor
          · rintro ⟨item, hmem, hviol⟩
            exact ⟨item, List.mem_cons_of_mem x hmem, hviol⟩
          · rintro ⟨item, hmem, hviol⟩
            rcases List.mem_cons.mp hmem with rfl | hmem2
            · exfalso
              rcases hviol with a | b | c | d | ⟨inv2, hfind2, hlt⟩
              · exact h1 (Or.inl a)
              · exact h1 (Or.inr (Or.inl b))
              · exact h1 (Or.inr (Or.inr (Or.inl c)))
              · exact h1 (Or.inr (Or.inr (Or.inr d)))
              · rw [hf] at hfind2
                cases hfind2
                exact h2 hlt
            · exact ⟨item, hmem2, hviol⟩
      | none =>
        dsimp only
        rw [ih]
        constructor
        · rintro ⟨item, hmem, hviol⟩
          exact ⟨item, List.mem_cons_of_mem x hmem, hviol⟩
        · rintro ⟨item, hmem, hviol⟩
          rcases List.mem_cons.mp hmem with rfl | hmem2
          · exfalso
            rcases hviol with a | b | c | d | ⟨inv2, hfind2, hlt⟩
            · exact h1 (Or.inl a)
            · exact h1 (Or.inr (Or.inl b))
            · exact h1 (Or.inr (Or.inr (Or.inl c)))
            · exact h1 (Or.inr (Or.inr (Or.inr d)))
            · rw [hf] at hfind2
              cases hfind2
          · exact ⟨item, hmem2, hviol⟩

/-- The toasts of validateItems: none, or exactly one naming toast for a
resolved inventory item with fewer units than some line requests. -/
lemma validateItems_toasts (inventory : List InventoryItem) (items : List InvoiceItem) :
    (validateItems inventory items).2 = [] ∨
      ∃ item ∈ items, ∃ invItem,
        findInventory inventory item.inventory_id = some invItem ∧
        invItem.quantity < item.quantity ∧
        (validateItems inventory items).2 = [insufficientToast invItem] := by
  induction items with
  | nil => exact Or.inl rfl
  | cons x xs ih =>
    rw [validateItems]
    by_cases h1 : x.inventory_id = "" ∨ x.description = "" ∨ x.quantity ≤ 0 ∨ x.unit_price ≤ 0
    · rw [if_pos h1]
      exact Or.inl rfl
    · rw [if_neg h1]
      cases hf : findInventory inventory x.inventory_id with
      | some invItem =>
        dsimp only
        by_cases h2 : invItem.quantity < x.quantity
        · rw [if_pos h2]
          exact Or.inr ⟨x, List.mem_cons_self x xs, invItem, hf, h2, rfl⟩
        · rw [if_neg h2]
          rcases ih with hnil | ⟨item, hmem, invItem2, hfind2, hlt2, heq⟩
          · exact Or.inl hnil
          · exact Or.inr ⟨item, List.mem_cons_of_mem x hmem, invItem2, hfind2, hlt2, heq⟩
      | none =>
        dsimp only
        rcases ih with hnil | ⟨item, hmem, invItem2, hfind2, hlt2, heq⟩
        · exact Or.inl hnil
        · exact Or.inr ⟨item, List.mem_cons_of_mem x hmem, invItem2, hfind2, hlt2, heq⟩

/-- When every line passes the field checks yet some line violates validation,
the violation is a stock violation and validateItems raises exactly the toast
naming the offending inventory item. -/
lemma validateItems_stock_toast (inventory : List InventoryItem) (items : List InvoiceItem)
    (hok : ∀ item ∈ items, fieldsOk item)
    (hviol : ∃ item ∈ items, lineViolation inventory item) :
    ∃ item ∈ items, ∃ invItem,
      findInventory inventory item.inventory_id = some invItem ∧
      invItem.quantity < item.quantity ∧
      (validateItems inventory items).2 = [insufficientToast invItem] := by
  revert hok hviol
  induction items with
  | nil =>
    intro hok hviol
    rcases hviol with ⟨item, hmem, _⟩
    cases hmem
  | cons x xs ih =>
    intro hok hviol
    have hx := hok x (List.mem_cons_self x xs)
    have h1 : ¬(x.inventory_id = "" ∨ x.description = "" ∨ x.quantity ≤ 0 ∨ x.unit_price ≤ 0) := by
      push_neg
      exact ⟨hx.1, hx.2.1, hx.2.2.1, hx.2.2.2⟩
    rw [validateItems, if_neg h1]
    cases hf : findInventory inventory x.inventory_id with
    | some invItem =>
      dsimp only
      by_cases h2 : invItem.quantity < x.quantity
      · rw [if_pos h2]
        exact ⟨x, List.mem_cons_self x xs, invItem, hf, h2, rfl⟩
      · rw [if_neg h2]
        have hviol2 : ∃ item ∈ xs, lineViolation inventory item := by
          rcases hviol with ⟨item, hmem, hv⟩
          rcases List.mem_cons.mp hmem with rfl | hmem2
          · exfalso
            rcases hv with a | b | c | d | ⟨inv2, hfind2, hlt⟩
            · exact hx.1 a
            · exact hx.2.1 b
            · exact absurd hx.2.2.1 (not_lt.mpr c)
            · exact absurd hx.2.2.2 (not_lt.mpr d)
            · rw [hf] at hfind2
              cases hfind2
              exact h2 hlt
          · exact ⟨item, hmem2, hv⟩
        rcases ih (fun item hm => hok item (List.mem_cons_of_mem x hm)) hviol2 with
          ⟨item, hmem, invItem2, hfind2, hlt2, heq⟩
        exact ⟨item, List.mem_cons_of_mem x hmem, invItem2, hfind2, hlt2, heq⟩
    | none =>
      dsimp only
      have hviol2 : ∃ item ∈ xs, lineViolation inventory item := by
        rcases hviol with ⟨item, hmem, hv⟩
        rcases List.mem_cons.mp hmem with rfl | hmem2
        · exfalso
          rcases hv with a | b | c | d | ⟨inv2, hfind2, hlt⟩
          · exact hx.1 a
          · exact hx.2.1 b
          · exact absurd hx.2.2.1 (not_lt.mpr c)
          · exact absurd hx.2.2.2 (not_lt.mpr d)
          · rw [hf] at hfind2
            cases hfind2
        · exact ⟨item, hmem2, hv⟩
      rcases ih (fun item hm => hok item (List.mem_cons_of_mem x hm)) hviol2 with
        ⟨item, hmem, invItem2, hfind2, hlt2, heq⟩
      exact ⟨item, List.mem_cons_of_mem x hmem, invItem2, hfind2, hlt2, heq⟩

/-- updateItemField keeps line_total = quantity * unit_price. -/
lemma updateItemField_invariant (inventory : List InventoryItem) (field : ItemField)
    (item : InvoiceItem)
    (h : item.line_total = calculateItemTotal item.quantity item.unit_price) :
    (updateItemField inventory field item).1.line_total =
      calculateItemTotal (updateItemField inventory field item).1.quantity
        (updateItemField inventory field item).1.unit_price := by
  cases field with
  | description s => exact h
  | unit_price p => rfl
  | quantity n =>
    rw [updateItemField]
    split
    · split
      · split <;> rfl
      · rfl
    · rfl


/-! ### Sample data for witnesses -/

/-- A one-element inventory: Steel Beam, price 100, 5 units available. -/
def sampleInventory : List InventoryItem :=
  [{ id := "I1", name := "Steel Beam", unit_price := 100, quantity := 5 }]

/-- The Steel Beam inventory record itself. -/
def sampleBeam : InventoryItem :=
  { id := "I1", name := "Steel Beam", unit_price := 100, quantity := 5 }

/-- A fully valid line: 2 Steel Beams at 100 each. -/
def sampleItem : InvoiceItem :=
  { id := "1", inventory_id := "I1", description := "Steel Beam", quantity := 2,
    unit_price := 100, line_total := 200 }

/-- Form state with a client selected. -/
def sampleForm : FormData :=
  { client_id := "C1", invoice_number := "INV-1001", issue_date := "2026-01-01",
    due_date := "2026-01-31", notes := "", status := "draft" }

/-! ### Claim theorems -/

/-- Submitting with no existing invoice, a selected client and passing
validation issues exactly the create-invoice write, then the batch insert of
the line records (reduced from the valid branch of handleSubmit). -/
lemma handleSubmit_create_valid (inventory : List InventoryItem) (formData : FormData)
    (items : List InvoiceItem) (newId : String)
    (hclient : formData.client_id ≠ "")
    (hvalid : (validateItems inventory items).1 = true) :
    handleSubmit inventory none formData items newId =
      (RemoteWrite.createInvoice (mkInvoiceData formData (calculateSubtotal items)) ::
        RemoteWrite.createInvoiceItems (items.map (lineItemRecord newId)) ::
        inventoryDecrements items,
       (validateItems inventory items).2 ++ [successToast false]) := by
  unfold handleSubmit
  rw [if_neg hclient]
  dsimp only
  rw [if_pos hvalid]

/-- C1: a new-invoice submission passing validation issues, in order, the
invoice creation, then the batch of line records referencing the new invoice
id, then one stock decrement per line with a bound inventory reference and
positive quantity (and no decrement for the other lines). -/
theorem submit_new_invoice_write_order (inventory : List InventoryItem) (formData : FormData)
    (items : List InvoiceItem) (newId : String)
    (hclient : formData.client_id ≠ "")
    (hvalid : (validateItems inventory items).1 = true) :
    (handleSubmit inventory none formData items newId).1 =
      RemoteWrite.createInvoice (mkInvoiceData formData (calculateSubtotal items)) ::
        RemoteWrite.createInvoiceItems (items.map (lineItemRecord newId)) ::
        (items.filter (fun item => item.inventory_id != "" && decide (0 < item.quantity))).map
          (fun item => RemoteWrite.updateInventoryQuantity item.inventory_id item.quantity) := by
  rw [handleSubmit_create_valid inventory formData items newId hclient hvalid]
  dsimp only
  rw [inventoryDecrements_eq]

/-- Witness for C1: one fully valid Steel Beam line. -/
theorem submit_new_invoice_write_order_witness :
    (handleSubmit sampleInventory none sampleForm [sampleItem] "inv-9").1 =
      RemoteWrite.createInvoice (mkInvoiceData sampleForm (calculateSubtotal [sampleItem])) ::
        RemoteWrite.createInvoiceItems ([sampleItem].map (lineItemRecord "inv-9")) ::
        ([sampleItem].filter (fun item => item.inventory_id != "" && decide (0 < item.quantity))).map
          (fun item => RemoteWrite.updateInventoryQuantity item.inventory_id item.quantity) :=
  submit_new_invoice_write_order sampleInventory sampleForm [sampleItem] "inv-9"
    (by decide) (by decide)

/-- C2: a new-invoice submission with some violating line issues no remote
write; the generic notification is raised; any validation toast is the one
naming an offending inventory item; and when every line passes the field
checks (so the violation is stock availability) the naming toast is raised. -/
theorem submit_blocked_on_invalid_line (inventory : List InventoryItem) (formData : FormData)
    (items : List InvoiceItem) (newId : String)
    (hclient : formData.client_id ≠ "")
    (hviol : ∃ item ∈ items, lineViolation inventory item) :
    (handleSubmit inventory none formData items newId).1 = [] ∧
    (handleSubmit inventory none formData items newId).2 =
      (validateItems inventory items).2 ++ [invalidItemsToast] ∧
    ((validateItems inventory items).2 = [] ∨
      ∃ item ∈ items, ∃ invItem,
        findInventory inventory item.inventory_id = some invItem ∧
        invItem.quantity < item.quantity ∧
        (validateItems inventory items).2 = [insufficientToast invItem]) ∧
    ((∀ item ∈ items, fieldsOk item) →
      ∃ item ∈ items, ∃ invItem,
        findInventory inventory item.inventory_id = some invItem ∧
        invItem.quantity < item.quantity ∧
        (validateItems inventory items).2 = [insufficientToast invItem]) := by
  have hfail : (validateItems inventory items).1 = false :=
    (validateItems_false_iff inventory items).mpr hviol
  have hsub : handleSubmit inventory none formData items newId =
      ([], (validateItems inventory items).2 ++ [invalidItemsToast]) := by
    unfold handleSubmit
    rw [if_neg hclient]
    dsimp only
    simp [hfail]
  refine ⟨by rw [hsub], by rw [hsub], validateItems_toasts inventory items, ?_⟩
  intro hok
  exact validateItems_stock_toast inventory items hok hviol

/-- Witness for C2: the blank initial line has no inventory reference. -/
theorem submit_blocked_on_invalid_line_witness :
    (handleSubmit sampleInventory none sampleForm initialItems "inv-9").1 = [] :=
  (submit_blocked_on_invalid_line sampleInventory sampleForm initialItems "inv-9"
    (by decide) ⟨blankDraft "1", by simp [initialItems], Or.inl rfl⟩).1

/-- C4: any invoice record written by a submission (created or updated) has
subtotal = sum of the current lines' totals, tax 0, and total = subtotal. -/
theorem submitted_invoice_totals (inventory : List InventoryItem) (existing : Option String)
    (formData : FormData) (items : List InvoiceItem) (newId : String) (d : InvoiceData)
    (h : RemoteWrite.createInvoice d ∈ (handleSubmit inventory existing formData items newId).1 ∨
      ∃ invId, RemoteWrite.updateInvoice invId d ∈
        (handleSubmit inventory existing formData items newId).1) :
    d.subtotal = (items.map InvoiceItem.line_total).sum ∧
    d.tax_amount = 0 ∧
    d.total_amount = d.subtotal := by
  have hd : d = mkInvoiceData formData (calculateSubtotal items) := by
    by_cases hclient : formData.client_id = ""
    · unfold handleSubmit at h
      rw [if_pos hclient] at h
      rcases h with h | ⟨invId, h⟩ <;> cases h
    · unfold handleSubmit at h
      rw [if_neg hclient] at h
      cases existing with
      | some invId0 =>
        dsimp only at h
        rcases h with h | ⟨invId, h⟩
        · exact absurd (List.mem_singleton.mp h) (by simp)
        · have := List.mem_singleton.mp h
          simp only [RemoteWrite.updateInvoice.injEq] at this
          exact this.2
      | none =>
        dsimp only at h
        by_cases hvalid : (validateItems inventory items).1 = true
        · rw [if_pos hvalid] at h
          dsimp only at h
          rcases h with h | ⟨invId, h⟩
          · rcases List.mem_cons.mp h with h1 | h2
            · simpa using h1
            · rcases List.mem_cons.mp h2 with h3 | h4
              · exact absurd h3 (by simp)
              · rcases mem_inventoryDecrements items _ h4 with ⟨item, _, _, _, heq⟩
                exact absurd heq (by simp)
          · rcases List.mem_cons.mp h with h1 | h2
            · exact absurd h1 (by simp)
            · rcases List.mem_cons.mp h2 with h3 | h4
              · exact absurd h3 (by simp)
              · rcases mem_inventoryDecrements items _ h4 with ⟨item, _, _, _, heq⟩
                exact absurd heq (by simp)
        · rw [if_neg hvalid] at h
          dsimp only at h
          rcases h with h | ⟨invId, h⟩ <;> cases h
  subst hd
  exact ⟨calculateSubtotal_eq_sum items, rfl, rfl⟩

/-- Witness for C4 through the update path at concrete data. -/
theorem submitted_invoice_totals_witness :
    (mkInvoiceData sampleForm (calculateSubtotal [sampleItem])).subtotal =
      ([sampleItem].map InvoiceItem.line_total).sum ∧
    (mkInvoiceData sampleForm (calculateSubtotal [sampleItem])).tax_amount = 0 ∧
    (mkInvoiceData sampleForm (calculateSubtotal [sampleItem])).total_amount =
      (mkInvoiceData sampleForm (calculateSubtotal [sampleItem])).subtotal :=
  submitted_invoice_totals sampleInventory (some "inv-7") sampleForm [sampleItem] "inv-9"
    (mkInvoiceData sampleForm (calculateSubtotal [sampleItem]))
    (Or.inr ⟨"inv-7", by simp [handleSubmit, sampleForm]⟩)

/-- C7: submitting while editing an existing invoice issues exactly the
invoice update: no line-record insert and no stock decrement. -/
theorem edit_invoice_updates_only_invoice (inventory : List InventoryItem) (formData : FormData)
    (items : List InvoiceItem) (newId invId : String)
    (hclient : formData.client_id ≠ "") :
    (handleSubmit inventory (some invId) formData items newId).1 =
      [RemoteWrite.updateInvoice invId (mkInvoiceData formData (calculateSubtotal items))] ∧
    ∀ w ∈ (handleSubmit inventory (some invId) formData items newId).1,
      (∀ records, w ≠ RemoteWrite.createInvoiceItems records) ∧
      (∀ a b, w ≠ RemoteWrite.updateInventoryQuantity a b) := by
  have hs : (handleSubmit inventory (some invId) formData items newId).1 =
      [RemoteWrite.updateInvoice invId (mkInvoiceData formData (calculateSubtotal items))] := by
    unfold handleSubmit
    rw [if_neg hclient]
  refine ⟨hs, ?_⟩
  intro w hw
  rw [hs] at hw
  have hw2 := List.mem_singleton.mp hw
  subst hw2
  exact ⟨fun records h => RemoteWrite.noConfusion h,
    fun a b h => RemoteWrite.noConfusion h⟩

/-- Witness for C7 at concrete data. -/
theorem edit_invoice_updates_only_invoice_witness :
    (handleSubmit sampleInventory (some "inv-7") sampleForm [sampleItem] "inv-9").1 =
      [RemoteWrite.updateInvoice "inv-7" (mkInvoiceData sampleForm (calculateSubtotal [sampleItem]))] :=
  (edit_invoice_updates_only_invoice sampleInventory sampleForm [sampleItem] "inv-9" "inv-7"
    (by decide)).1

/-- C3: a quantity edit on a line whose inventory reference resolves clamps to
the available quantity and raises the naming toast when the request exceeds
it, accepts the request otherwise, and always recomputes the line total. -/
theorem quantity_edit_clamps_to_stock (inventory : List InventoryItem) (item : InvoiceItem)
    (n : ℤ) (invItem : InventoryItem)
    (hbound : item.inventory_id ≠ "")
    (hfind : findInventory inventory item.inventory_id = some invItem) :
    (invItem.quantity < n →
      updateItemField inventory (ItemField.quantity n) item =
        ({ item with
            quantity := invItem.quantity
            line_total := calculateItemTotal invItem.quantity item.unit_price },
          [insufficientToast invItem])) ∧
    (n ≤ invItem.quantity →
      updateItemField inventory (ItemField.quantity n) item =
        ({ item with quantity := n, line_total := calculateItemTotal n item.unit_price }, [])) ∧
    (updateItemField inventory (ItemField.quantity n) item).1.line_total =
      calculateItemTotal (updateItemField inventory (ItemField.quantity n) item).1.quantity
        (updateItemField inventory (ItemField.quantity n) item).1.unit_price := by
  have hbase : updateItemField inventory (ItemField.quantity n) item =
      if invItem.quantity < n then
        ({ item with
            quantity := invItem.quantity
            line_total := calculateItemTotal invItem.quantity item.unit_price },
          [insufficientToast invItem])
      else ({ item with quantity := n, line_total := calculateItemTotal n item.unit_price }, []) := by
    unfold updateItemField
    dsimp only
    rw [if_pos hbound, hfind]
  refine ⟨?_, ?_, ?_⟩
  · intro hlt
    rw [hbase, if_pos hlt]
  · intro hle
    rw [hbase, if_neg (not_lt.mpr hle)]
  · rw [hbase]
    by_cases hlt : invItem.quantity < n
    · rw [if_pos hlt]
    · rw [if_neg hlt]

/-- Witness for C3: requesting 10 Steel Beams clamps to the 5 available. -/
theorem quantity_edit_clamps_to_stock_witness :
    updateItemField sampleInventory (ItemField.quantity 10) sampleItem =
      ({ sampleItem with
          quantity := sampleBeam.quantity
          line_total := calculateItemTotal sampleBeam.quantity sampleItem.unit_price },
        [insufficientToast sampleBeam]) :=
  (quantity_edit_clamps_to_stock sampleInventory sampleItem 10 sampleBeam
    (by decide) rfl).1 (by decide)

/-- C5: selecting a resolved inventory item into a line copies its name and
unit price, clamps quantity to min(current, available), and recomputes the
line total; the updated line is in the result. -/
theorem inventory_select_copies_fields (inventory : List InventoryItem) (itemId invId : String)
    (items : List InvoiceItem) (invItem : InventoryItem) (item : InvoiceItem)
    (hfind : findInventory inventory invId = some invItem)
    (hmem : item ∈ items) (hid : item.id = itemId) :
    selectInventoryInto invId invItem item ∈ handleInventorySelect inventory itemId invId items ∧
    (selectInventoryInto invId invItem item).description = invItem.name ∧
    (selectInventoryInto invId invItem item).unit_price = invItem.unit_price ∧
    (selectInventoryInto invId invItem item).quantity = min item.quantity invItem.quantity ∧
    (selectInventoryInto invId invItem item).line_total =
      calculateItemTotal (min item.quantity invItem.quantity) invItem.unit_price := by
  refine ⟨?_, rfl, rfl, rfl, rfl⟩
  unfold handleInventorySelect
  rw [hfind]
  dsimp only
  have heq : selectInventoryInto invId invItem item =
      (fun it => if it.id == itemId then selectInventoryInto invId invItem it else it) item := by
    simp [hid]
  rw [heq]
  exact List.mem_map_of_mem _ hmem

/-- Witness for C5: selecting the Steel Beam into the blank initial line. -/
theorem inventory_select_copies_fields_witness :
    selectInventoryInto "I1" sampleBeam (blankDraft "1") ∈
      handleInventorySelect sampleInventory "1" "I1" initialItems :=
  (inventory_select_copies_fields sampleInventory "1" "I1" initialItems sampleBeam
    (blankDraft "1") rfl (by simp [initialItems]) rfl).1

/-- A line whose inventory reference does not resolve (used for C10). -/
def ghostItem : InvoiceItem :=
  { id := "1", inventory_id := "ghost", description := "Custom work", quantity := 1,
    unit_price := 50, line_total := 50 }

/-- C10: when a line's bound inventory reference resolves to no fetched
inventory item, a quantity edit accepts any requested value with no toast,
and validation passes the line with no stock comparison. -/
theorem unresolved_inventory_skips_checks (inventory : List InventoryItem) (item : InvoiceItem)
    (n : ℤ) (rest : List InvoiceItem)
    (hbound : item.inventory_id ≠ "")
    (hfind : findInventory inventory item.inventory_id = none)
    (hdesc : item.description ≠ "")
    (hq : 0 < item.quantity) (hp : 0 < item.unit_price) :
    updateItemField inventory (ItemField.quantity n) item =
      ({ item with quantity := n, line_total := calculateItemTotal n item.unit_price }, []) ∧
    validateItems inventory (item :: rest) = validateItems inventory rest := by
  constructor
  · unfold updateItemField
    dsimp only
    rw [if_pos hbound, hfind]
  · have h1 : ¬(item.inventory_id = "" ∨ item.description = "" ∨ item.quantity ≤ 0 ∨
        item.unit_price ≤ 0) := by
      push_neg
      exact ⟨hbound, hdesc, hq, hp⟩
    rw [validateItems, if_neg h1, hfind]

/-- Witness for C10: an unresolvable reference accepts quantity 99 silently. -/
theorem unresolved_inventory_skips_checks_witness :
    updateItemField sampleInventory (ItemField.quantity 99) ghostItem =
      ({ ghostItem with
          quantity := 99
          line_total := calculateItemTotal 99 ghostItem.unit_price }, []) :=
  (unresolved_inventory_skips_checks sampleInventory ghostItem 99 []
    (by decide) rfl (by decide) (by decide) (by decide)).1

/-- C6: every editor operation preserves line_total = quantity * unit_price,
the invariant holds in both initial states, and a unit-price edit is accepted
unconditionally (no toast) and recomputes the line total. -/
theorem editor_line_total_invariant (inventory : List InventoryItem) (op : EditorOp)
    (items : List InvoiceItem) (h : linesInvariant items) :
    linesInvariant (applyOp inventory op items) ∧
    linesInvariant initialItems ∧
    (∀ s : ℚ, linesInvariant (prefillItems s)) ∧
    (∀ p : ℚ, ∀ item : InvoiceItem,
      updateItemField inventory (ItemField.unit_price p) item =
        ({ item with unit_price := p, line_total := calculateItemTotal item.quantity p }, [])) := by
  refine ⟨?_, ?_, ?_, fun p item => rfl⟩
  · cases op with
    | select itemId invId =>
      dsimp only [applyOp]
      unfold handleInventorySelect
      cases hf : findInventory inventory invId with
      | some invItem =>
        dsimp only
        intro item hmem
        rcases List.mem_map.mp hmem with ⟨x, hx, rfl⟩
        by_cases hxid : (x.id == itemId) = true
        · rw [if_pos hxid]
          rfl
        · rw [if_neg hxid]
          exact h x hx
      | none => exact h
    | change id field =>
      dsimp only [applyOp, handleItemChange]
      intro item hmem
      rcases List.mem_map.mp hmem with ⟨x, hx, rfl⟩
      by_cases hxid : (x.id == id) = true
      · rw [if_pos hxid]
        exact updateItemField_invariant inventory field x (h x hx)
      · rw [if_neg hxid]
        exact h x hx
    | add newId =>
      dsimp only [applyOp, addItem]
      intro item hmem
      rcases List.mem_append.mp hmem with hx | hx
      · exact h item hx
      · have hx2 := List.mem_singleton.mp hx
        subst hx2
        simp [blankDraft, calculateItemTotal]
    | remove id =>
      dsimp only [applyOp, removeItem]
      split
      · intro item hmem
        exact h item (List.mem_of_mem_filter hmem)
      · exact h
  · intro item hmem
    simp only [initialItems, List.mem_singleton] at hmem
    subst hmem
    simp [blankDraft, calculateItemTotal]
  · intro s item hmem
    simp only [prefillItems, List.mem_singleton] at hmem
    subst hmem
    simp [calculateItemTotal]

/-- Witness for C6: adding a line to the initial state keeps the invariant. -/
theorem editor_line_total_invariant_witness :
    linesInvariant (applyOp sampleInventory (EditorOp.add "2") initialItems) :=
  (editor_line_total_invariant sampleInventory (EditorOp.add "2") initialItems
    (by
      intro item hmem
      simp only [initialItems, List.mem_singleton] at hmem
      subst hmem
      simp [blankDraft, calculateItemTotal])).1

/-- Mapping an id-preserving function over the lines keeps the id list. -/
lemma map_preserving_ids (f : InvoiceItem → InvoiceItem) (hf : ∀ x, (f x).id = x.id)
    (items : List InvoiceItem) :
    (items.map f).map InvoiceItem.id = items.map InvoiceItem.id := by
  induction items with
  | nil => rfl
  | cons x xs ih => simp [hf, ih]

/-- handleInventorySelect keeps the id list. -/
lemma handleInventorySelect_ids (inventory : List InventoryItem) (itemId invId : String)
    (items : List InvoiceItem) :
    (handleInventorySelect inventory itemId invId items).map InvoiceItem.id =
      items.map InvoiceItem.id := by
  unfold handleInventorySelect
  cases hf : findInventory inventory invId with
  | some invItem =>
    dsimp only
    apply map_preserving_ids
    intro x
    by_cases hx : (x.id == itemId) = true
    · rw [if_pos hx]
      rfl
    · rw [if_neg hx]
  | none => rfl

/-- handleItemChange keeps the id list. -/
lemma handleItemChange_ids (inventory : List InventoryItem) (items : List InvoiceItem)
    (id : String) (field : ItemField) :
    (handleItemChange inventory items id field).1.map InvoiceItem.id =
      items.map InvoiceItem.id := by
  dsimp only [handleItemChange]
  apply map_preserving_ids
  intro x
  by_cases hx : (x.id == id) = true
  · rw [if_pos hx]
    exact updateItemField_id inventory field x
  · rw [if_neg hx]

/-- Filtering out one id removes at most one element when ids are distinct. -/
lemma filter_ne_length (a : String) (items : List InvoiceItem)
    (h : (items.map InvoiceItem.id).Nodup) :
    items.length - 1 ≤ (items.filter (fun item => item.id != a)).length := by
  induction items with
  | nil => simp
  | cons x xs ih =>
    rw [List.map_cons, List.nodup_cons] at h
    by_cases hxa : x.id = a
    · rw [List.filter_cons_of_neg (by simp [hxa])]
      have hfe : xs.filter (fun item => item.id != a) = xs := by
        rw [List.filter_eq_self]
        intro y hy
        have hyid : y.id ∈ xs.map InvoiceItem.id := List.mem_map_of_mem InvoiceItem.id hy
        simp only [bne_iff_ne, ne_eq, decide_eq_true_eq]
        intro hya
        rw [hya, ← hxa] at hyid
        exact h.1 hyid
      rw [hfe]
      simp
    · rw [List.filter_cons_of_pos (by simp [hxa])]
      simp only [List.length_cons]
      have := ih h.2
      omega

/-- Reachable editor states have at least one line and pairwise distinct ids. -/
lemma reachable_invariant (inventory : List InventoryItem) (items : List InvoiceItem)
    (h : Reachable inventory items) :
    1 ≤ items.length ∧ (items.map InvoiceItem.id).Nodup := by
  induction h with
  | init => simp [initialItems]
  | select itemId invId hprev ih =>
    rename_i items0
    have hids := handleInventorySelect_ids inventory itemId invId items0
    have hlen : (handleInventorySelect inventory itemId invId items0).length = items0.length := by
      have := congrArg List.length hids
      simpa using this
    exact ⟨by rw [hlen]; exact ih.1, by rw [hids]; exact ih.2⟩
  | change id field hprev ih =>
    rename_i items0
    have hids := handleItemChange_ids inventory items0 id field
    have hlen : (handleItemChange inventory items0 id field).1.length = items0.length := by
      have := congrArg List.length hids
      simpa using this
    exact ⟨by rw [hlen]; exact ih.1, by rw [hids]; exact ih.2⟩
  | add newId fresh hprev ih =>
    rename_i items0
    constructor
    · simp [addItem]
    · rw [addItem, List.map_append]
      refine List.Nodup.append ih.2 (by simp) ?_
      intro a ha hb
      rcases List.mem_map.mp ha with ⟨item, hmem, rfl⟩
      simp only [List.map_cons, List.map_nil, List.mem_singleton, blankDraft] at hb
      exact fresh item hmem hb
  | remove id hprev ih =>
    rename_i items0
    unfold removeItem
    split
    · rename_i hlen
      constructor
      · have := filter_ne_length id items0 ih.2
        omega
      · exact List.Nodup.sublist
          (List.Sublist.map InvoiceItem.id (List.filter_sublist items0)) ih.2
    · exact ih

/-- C8: every reachable editor state has at least one line; removing a line
when exactly one remains is a no-op; adding a line appends one blank draft. -/
theorem editor_min_one_line (inventory : List InventoryItem) :
    (∀ items, Reachable inventory items → 1 ≤ items.length) ∧
    (∀ id items, items.length = 1 → removeItem id items = items) ∧
    (∀ newId items, addItem newId items = items ++ [blankDraft newId]) := by
  refine ⟨fun items h => (reachable_invariant inventory items h).1, ?_, fun newId items => rfl⟩
  intro id items hlen
  unfold removeItem
  rw [hlen]
  simp

/-- Witness for C8: the initial state and the one-line no-op removal. -/
theorem editor_min_one_line_witness :
    1 ≤ initialItems.length ∧ removeItem "1" initialItems = initialItems :=
  ⟨(editor_min_one_line []).1 initialItems Reachable.init,
   (editor_min_one_line []).2.1 "1" initialItems (by decide)⟩

/-- C9: for every column actually rendered through formatValue in the record
browser (all configured columns except the badge-rendered status column), the
code's dispatch agrees with the spec's rule: currency exactly for columns
containing amount/price/total, date-time exactly for columns containing
"date" or ending in "_at", plain otherwise. -/
theorem formatValue_rendered_columns :
    ∀ column ∈ browserColumns, column ≠ "status" →
      formatValueKind column = specFormatKind column := by decide

/-- Witness for C9: the issue_date column renders the same under both rules. -/
theorem formatValue_rendered_columns_witness :
    formatValueKind "issue_date" = specFormatKind "issue_date" :=
  formatValue_rendered_columns "issue_date" (by decide) (by decide)
